import Mathlib

/-!
Verification of the clai session core against its specification.

The Lean definitions below are shallow embeddings of the Go source of the
repository `penguinpowernz/clai`:

* `internal/tools/security.go` — `Sanitize`, `IsExcluded`
* `internal/tools/tools.go` — `ExecuteTool` dispatch, `listFiles` / `readFile`
  path resolution
* the `chat` package `Stream` type — the stream driver receive loop
* the `chat` package `Session` type — permission state, tool-call handling,
  and the conversation history appends

Go's standard library string and path functions used by that code
(`strings.ReplaceAll`, `strings.TrimPrefix`, `strings.Contains`,
`strings.HasPrefix`, `path/filepath.Clean`, `Join`, `Abs`, `Base`) are
reimplemented here over `List Char` with the same semantics, so that every
definition is executable and every concrete evaluation goes through `decide`.
-/

namespace Clai

/-! ## Go standard-library string primitives (over `List Char`) -/

/-- Whether `p` is a leading segment of `s` (Go `strings.HasPrefix p`-style
check, with the pattern as the first argument). -/
def listStartsWith : List Char → List Char → Bool
  | [], _ => true
  | _ :: _, [] => false
  | p :: ps, c :: cs => p = c && listStartsWith ps cs

/-- Go `strings.HasPrefix s pre`. -/
def goHasPre (s pre : String) : Bool :=
  listStartsWith pre.toList s.toList

/-- Go `strings.Contains s sub`: `sub` occurs as a contiguous substring of `s`. -/
def containsSubChars (sub : List Char) : List Char → Bool
  | [] => sub.isEmpty
  | c :: cs => listStartsWith sub (c :: cs) || containsSubChars sub cs

/-- Go `strings.Contains` on `String`. -/
def strContainsSub (s sub : String) : Bool :=
  containsSubChars sub.toList s.toList

/-- Core of Go `strings.ReplaceAll s old new` for a non-empty `old`:
scan left to right, replacing each non-overlapping occurrence of `pat`
by `rep`.  The recursion is made structural by a fuel argument that counts
remaining scan positions; each step either consumes one character or a
whole (non-empty) occurrence of `pat`, so fuel equal to the input length
never runs out.  (Go treats an empty `old` specially, inserting `new` at
every rune boundary; the repository only ever calls `ReplaceAll` with the
non-empty pattern `"../"`, so that case never arises here.) -/
def replaceAllCharsFuel (pat rep : List Char) : Nat → List Char → List Char
  | 0, s => s
  | _ + 1, [] => []
  | n + 1, c :: cs =>
    if pat ≠ [] ∧ listStartsWith pat (c :: cs) then
      rep ++ replaceAllCharsFuel pat rep n ((c :: cs).drop pat.length)
    else
      c :: replaceAllCharsFuel pat rep n cs

/-- Scan of `replaceAllCharsFuel` started with enough fuel. -/
def replaceAllChars (pat rep s : List Char) : List Char :=
  replaceAllCharsFuel pat rep s.length s

/-- Go `strings.ReplaceAll`. -/
def goReplaceAll (s pat rep : String) : String :=
  if pat = "" then s
  else String.mk (replaceAllChars pat.toList rep.toList s.toList)

/-- Go `strings.TrimPrefix s pre`. -/
def goTrimPre (s pre : String) : String :=
  if goHasPre s pre then String.mk (s.toList.drop pre.toList.length) else s

/-- Go `strings.TrimSuffix s suf`. -/
def goTrimSuffix (s suf : String) : String :=
  if listStartsWith suf.toList.reverse s.toList.reverse then
    String.mk ((s.toList.reverse.drop suf.toList.length).reverse)
  else s

/-! ## Go `path/filepath` primitives -/

/-- Split a character list on a separator character; the separators are
dropped and empty components are kept (as Go's `strings.Split` does). -/
def splitOnChar (sep : Char) : List Char → List (List Char)
  | [] => [[]]
  | c :: rest =>
    if c = sep then [] :: splitOnChar sep rest
    else
      match splitOnChar sep rest with
      | [] => [[c]]
      | h :: t => (c :: h) :: t

/-- One step of the lexical simplification performed by Go
`path/filepath.Clean` on a unix path: the accumulator is the output
component stack in reverse order. -/
def cleanFold (rooted : Bool) (acc : List (List Char)) (comp : List Char) :
    List (List Char) :=
  if comp = [] ∨ comp = ['.'] then acc
  else if comp = ['.', '.'] then
    match acc with
    | [] => if rooted then [] else [['.', '.']]
    | top :: rest => if top = ['.', '.'] then comp :: acc else rest
  else comp :: acc

/-- Join path components with '/' separators. -/
def joinComps : List (List Char) → List Char
  | [] => []
  | [c] => c
  | c :: rest => c ++ '/' :: joinComps rest

/-- Go `path/filepath.Clean` (unix rules) as a lexical pass over the
slash-separated components. -/
def goCleanChars (cs : List Char) : List Char :=
  if cs = [] then ['.']
  else
    let rooted := match cs with | '/' :: _ => true | _ => false
    let comps := ((splitOnChar '/' cs).foldl (cleanFold rooted) []).reverse
    if rooted then '/' :: joinComps comps
    else if comps = [] then ['.'] else joinComps comps

/-- Go `path/filepath.Clean` on `String`. -/
def goClean (s : String) : String := String.mk (goCleanChars s.toList)

/-- Go `path/filepath.Join` for two elements: empty elements are skipped
and the result is `Clean`ed. -/
def goJoin (a b : String) : String :=
  if a = "" then (if b = "" then "" else goClean b)
  else if b = "" then goClean a
  else goClean (a ++ "/" ++ b)

/-- Go `path/filepath.IsAbs` on unix. -/
def goIsAbs (p : String) : Bool := goHasPre p "/"

/-- Go `path/filepath.Abs`: an absolute path is cleaned, a relative path is
joined onto the process working directory `cwd`. -/
def goAbs (cwd p : String) : String :=
  if goIsAbs p then goClean p else goJoin cwd p

/-- Base component of Go `path/filepath.Base` (unix). -/
def goBaseChars (cs : List Char) : List Char :=
  if cs = [] then ['.']
  else
    let t := (cs.reverse.dropWhile (fun c => c = '/')).reverse
    if t = [] then ['/']
    else (t.reverse.takeWhile (fun c => ¬ (c = '/'))).reverse

/-- Go `path/filepath.Base` on `String`. -/
def goBase (s : String) : String := String.mk (goBaseChars s.toList)

/-! ## internal/tools/security.go -/

/-- Configuration record: the slice of the Go `config.Config` struct that the
tools package reads (`ExcludePatterns []string`). -/
structure Config where
  excludePatterns : List String
deriving DecidableEq, Repr

/-- Embedding of `Sanitize` from `internal/tools/security.go`:

    path = strings.TrimPrefix(path, "/")
    path = strings.ReplaceAll(path, "../", "")
    return path
-/
def Sanitize (path : String) : String :=
  goReplaceAll (goTrimPre path "/") "../" ""

/-- Embedding of `IsExcluded` from `internal/tools/security.go`.  The Go
function indexes `path[0]` without a guard, so it panics on the empty
string; the total embedding returns `none` for that case.  The pattern
matcher `fpMatch` abstracts the Go standard-library `filepath.Match`
(whose error return the source discards).  For a path whose first byte is
'/' the function returns `true` without consulting the exclude patterns:

    if path[0] == '/' { return true }
    for _, pattern := range cfg.ExcludePatterns {
      matched, _ := filepath.Match(pattern, filepath.Base(path))
      if matched { return true }
      if strings.Contains(path, strings.TrimSuffix(pattern, "/")) { return true }
    }
    return false
-/
def IsExcluded (fpMatch : String → String → Bool) (cfg : Config) (path : String) :
    Option Bool :=
  match path.toList with
  | [] => none
  | c :: _ =>
    if c = '/' then some true
    else
      some (cfg.excludePatterns.any (fun pattern =>
        fpMatch pattern (goBase path) ||
          strContainsSub path (goTrimSuffix pattern "/")))

/-! ## internal/ai chunk types -/

/-- `ai.ToolCall`: `ID`, `Name`, and the raw JSON argument payload
(`json.RawMessage`, modelled as a string). -/
structure ToolCall where
  id : String
  name : String
  input : String
deriving DecidableEq, Repr

/-- `ai.MessageChunk`: a tagged streaming delta.  The tag `typ` is one of
the string constants `ChunkMessage`, `ChunkToolCall`, `ChunkThink`
(or the empty string for the zero value). -/
structure MessageChunk where
  typ : String
  content : String
  toolCall : Option ToolCall
deriving DecidableEq, Repr

/-- The `ai.ChunkMessage` constant. -/
def ChunkMessage : String := "message"

/-- The `ai.ChunkToolCall` constant. -/
def ChunkToolCall : String := "tool_call"

/-- The `ai.ChunkThink` constant. -/
def ChunkThink : String := "think"

/-- The zero value of `ai.MessageChunk`, which is what a receive on a
closed Go channel of `MessageChunk` yields. -/
def zeroChunk : MessageChunk := ⟨"", "", none⟩

/-! ## The chat.Stream receive loop

`Stream.Start` opens the provider stream and then runs

    for ctx.Err() == nil {
      select {
      case <-ctx.Done():
        break
      case chunk := <-s.stream:
        switch chunk.Type() {
        case ai.ChunkToolCall:
          s.toolCall = chunk.ToolCall
          s.Close()                      // cancels the inner context
        case ai.ChunkMessage:
          s.content.WriteString(chunk.Content)
        case ai.ChunkThink:
          s.reasoning.WriteString(chunk.Content)
        }
        s.onChunk(chunk)
      }
    }

The embedding keeps the accumulators, the terminal tool call, the
cancellation flag of the inner context (`cancelled` is `ctx.Err() != nil`),
and the ordered trace of chunks passed to the `onChunk` observer callback. -/

/-- State of one `chat.Stream` while its receive loop runs. -/
structure StreamState where
  content : String
  reasoning : String
  toolCall : Option ToolCall
  cancelled : Bool
  trace : List MessageChunk
deriving DecidableEq, Repr

/-- The stream state right after `NewStream`/`Start` before any chunk:
empty accumulators, no tool call, inner context alive, no observer calls. -/
def mkStream : StreamState := ⟨"", "", none, false, []⟩

/-- Processing of one received chunk by the body of the receive loop:
the switch on `chunk.Type()` followed by the `onChunk` callback (the
trace records the callback invocation).  The switch cases are mutually
exclusive (a tag equals at most one of the three constants) and each
touches distinct fields, so the switch is rendered fieldwise, one guard
per case label. -/
def streamStep (s : StreamState) (chunk : MessageChunk) : StreamState :=
  { content := if chunk.typ = ChunkMessage then s.content ++ chunk.content else s.content
    reasoning := if chunk.typ = ChunkThink then s.reasoning ++ chunk.content else s.reasoning
    toolCall := if chunk.typ = ChunkToolCall then chunk.toolCall else s.toolCall
    cancelled := if chunk.typ = ChunkToolCall then true else s.cancelled
    trace := s.trace ++ [chunk] }

/-- The receive loop run over the sequence of chunks the provider delivers:
before every receive the loop re-checks `ctx.Err() == nil`, so once the
inner context is cancelled no further chunk is processed. -/
def streamRun (s : StreamState) : List MessageChunk → StreamState
  | [] => s
  | c :: cs => if s.cancelled then s else streamRun (streamStep s c) cs

/-- The receive loop once the provider goroutine has closed the chunk
channel: every receive completes immediately with the zero value of
`MessageChunk`.  The fuel argument counts loop iterations, so the claim
that the loop never exits is the claim that no iteration count reaches a
state whose loop guard `ctx.Err() == nil` fails. -/
def streamRunClosed : Nat → StreamState → StreamState
  | 0, s => s
  | n + 1, s => if s.cancelled then s else streamRunClosed n (streamStep s zeroChunk)

/-- Concatenation, in delivery order, of the contents of the Text
(`ChunkMessage`) chunks of a trace. -/
def concatTexts (trace : List MessageChunk) : String :=
  trace.foldl (fun acc c => if c.typ = ChunkMessage then acc ++ c.content else acc) ""

/-! ## internal/tools/tools.go — ExecuteTool dispatch and path resolution -/

/-- `tools.ToolResult`: `ToolUseID`, `Content`, `IsError`. -/
structure ToolResult where
  toolUseID : String
  content : String
  isError : Bool
deriving DecidableEq, Repr

/-- The tool names registered in `ExecuteTool`'s dispatch switch in
`internal/tools/tools.go` (the registry-based variant dispatches over the
same executors through `DefaultTools`). -/
def registeredToolNames : List String :=
  ["list_files", "read_file", "write_file", "search_file", "search_files"]

/-- Embedding of `ExecuteTool` from `internal/tools/tools.go`.  The five
executors perform file I/O, so they are abstracted by the parameter
`execTool name input`, which returns the executor's `(string, error)`
outcome as an `Except`.  The dispatch, the unknown-name branch and the
error wrapping are the source's:

    switch toolCall.Name { ... registered executors ... default:
      result.Content = fmt.Sprintf("Unknown tool: %s", toolCall.Name)
      result.IsError = true
      return result
    }
    content, err := tool(*cfg, toolCall.Input, workingDir)
    if err != nil { result.Content = fmt.Sprintf("Error: %v", err); result.IsError = true }
    else { result.Content = content }
-/
def ExecuteTool (execTool : String → String → Except String String)
    (toolCall : ToolCall) : ToolResult :=
  if toolCall.name ∈ registeredToolNames then
    match execTool toolCall.name toolCall.input with
    | Except.ok content => ⟨toolCall.id, content, false⟩
    | Except.error e => ⟨toolCall.id, "Error: " ++ e, true⟩
  else ⟨toolCall.id, "Unknown tool: " ++ toolCall.name, true⟩

/-- Path resolution performed by `listFiles` in `internal/tools/tools.go`
before it touches the filesystem.  The function parses its arguments and
then computes

    targetPath := filepath.Join(workingDir, params.Path)

with no containment or sandbox check of any kind; the returned `.ok` value
is the path handed directly to `os.ReadDir` / `filepath.Walk`.
(`searchFiles` in the same file behaves the same way: `Join` then
`filepath.Glob`, with no check.) -/
def listFiles_targetPath (workingDir pathArg : String) : Except String String :=
  Except.ok (goJoin workingDir pathArg)

/-- Path resolution and sandbox gate of `readFile` in
`internal/tools/tools.go` (also used verbatim by `writeFile`, and in
variant form by `searchFile`):

    targetPath := filepath.Join(workingDir, params.Path)
    absTarget, _ := filepath.Abs(targetPath)
    absWorking, _ := filepath.Abs(workingDir)
    if !strings.HasPrefix(absTarget, absWorking) {
      return "", fmt.Errorf("access denied: path outside working directory")
    }
    for _, pattern := range cfg.ExcludePatterns {
      matched, _ := filepath.Match(pattern, filepath.Base(targetPath))
      if matched { return "", fmt.Errorf("file matches exclude pattern") }
    }

`cwd` is the process working directory that `filepath.Abs` resolves
relative paths against (the session sets `workingDir` from `os.Getwd`, so
the two coincide in the running program); `fpMatch` abstracts the Go
standard-library `filepath.Match`.  The `.ok` value is the path handed to
`os.ReadFile`. -/
def readFile_targetPath (fpMatch : String → String → Bool) (cfg : Config)
    (cwd workingDir pathArg : String) : Except String String :=
  let targetPath := goJoin workingDir pathArg
  let absTarget := goAbs cwd targetPath
  let absWorking := goAbs cwd workingDir
  if ¬ goHasPre absTarget absWorking then
    Except.error "access denied: path outside working directory"
  else if cfg.excludePatterns.any (fun pattern => fpMatch pattern (goBase targetPath)) then
    Except.error "file matches exclude pattern"
  else
    Except.ok targetPath

/-! ## The chat.Session coordinator (part of the `chat` package)

The session owns the conversation history `messages []ai.Message`, the
session-scoped permission set `permittedTools map[string]bool`, and the
two event channels.  `InteractiveMode` consumes inbound UI events;
`StartStream` ranges over the provider chunk channel and handles a
`ChunkToolCall` chunk with a permission round trip. -/

/-- `ai.ToolUse`, the structured tool call a message can carry
(`Message.ToolCall *ToolUse`); nothing in the session ever populates it. -/
structure ToolUse where
  id : String
  name : String
deriving DecidableEq, Repr

/-- `ai.Message`: role, content, the tool-call id of a tool-result message,
and the optional structured tool call. -/
structure Message where
  role : String
  content : String
  toolCallID : String
  toolCall : Option ToolUse
deriving DecidableEq, Repr

/-- Outbound events the session sends to its UI observer (the `ui.Event*`
types of the source). -/
inductive OutEvent where
  | streamStarted : OutEvent
  | streamChunk : String → OutEvent
  | streamThink : String → OutEvent
  | streamEnded : String → OutEvent
  | toolCallReq : ToolCall → OutEvent
  | streamErr : OutEvent
deriving DecidableEq, Repr

/-- Inbound events the session receives from the UI
(`ui.EventUserPrompt`, `ui.EventPermitToolUse`,
`ui.EventPermitToolUseThisSession`, `ui.EventCancelToolUse`). -/
inductive InEvent where
  | userPrompt : String → InEvent
  | permitOnce : ToolCall → InEvent
  | permitSession : ToolCall → InEvent
  | cancelTool : ToolCall → InEvent
deriving DecidableEq, Repr

/-- Effect of one inbound UI event on the `permittedTools` set, from the
`InteractiveMode` event loop: only `EventPermitToolUseThisSession` writes
to the map (`s.permittedTools[msg.Name] = true`); no handler ever deletes
an entry. -/
def permStep (permitted : List String) (e : InEvent) : List String :=
  match e with
  | InEvent.permitSession tc => tc.name :: permitted
  | _ => permitted

/-- The observer's answer to a permission prompt, i.e. which of the three
UI options (`EventPermitToolUse`, `EventPermitToolUseThisSession`,
`EventCancelToolUse`) it sends back while `StartStream` blocks on the
`permitToolCall` channel. -/
inductive Decision where
  | once : Decision
  | session : Decision
  | deny : Decision
deriving DecidableEq, Repr

/-- Result of handling one `ChunkToolCall` chunk in `StartStream`. -/
structure ToolCallOutcome where
  events : List OutEvent
  permitted : List String
  executed : Bool
  appended : List Message
deriving DecidableEq, Repr

/-- Embedding of the `ai.ChunkToolCall` arm of `StartStream`'s range loop
together with the `InteractiveMode` handler that answers the prompt:

    if _, permitted := s.permittedTools[chunk.ToolCall.Name]; !permitted {
      s.events <- ui.EventToolCall(*chunk.ToolCall)
      if ok := <-s.permitToolCall; !ok {
        continue                     // denied: skip the chunk, nothing appended
      }
    }
    output := s.executeTool(chunk.ToolCall)
    s.respondWithToolOutput(ctx, chunk.ToolCall.ID, output)
    break loop

`respondWithToolOutput` appends `ai.Message{Role: "user", Content: output,
ToolCallID: toolUseID}` and re-submits the conversation.  `decide` is the
observer's answer when a prompt is emitted (it is unused when the name is
already permitted), and `output` is the `ToolResult.Content` the abstract
executor produced. -/
def handleToolCall (permitted : List String) (tc : ToolCall) (decide : Decision)
    (output : String) : ToolCallOutcome :=
  if tc.name ∈ permitted then
    ⟨[], permitted, true, [⟨"user", output, tc.id, none⟩]⟩
  else
    match decide with
    | Decision.deny => ⟨[OutEvent.toolCallReq tc], permitted, false, []⟩
    | Decision.once =>
        ⟨[OutEvent.toolCallReq tc], permitted, true, [⟨"user", output, tc.id, none⟩]⟩
    | Decision.session =>
        ⟨[OutEvent.toolCallReq tc], tc.name :: permitted, true,
          [⟨"user", output, tc.id, none⟩]⟩

/-- Append performed by the `ui.EventUserPrompt` arm of `InteractiveMode`:

    s.messages = append(s.messages, ai.Message{Role: "user", Content: string(msg)})
    go s.SendMessage(ctx, string(msg))
-/
def interactivePromptAppend (ms : List Message) (text : String) : List Message :=
  ms ++ [⟨"user", text, "", none⟩]

/-- Append performed by `Session.SendMessage` before it streams:

    s.messages = append(s.messages, ai.Message{Role: "user", Content: message})
-/
def sendMessageAppend (ms : List Message) (text : String) : List Message :=
  ms ++ [⟨"user", text, "", none⟩]

/-- Append performed by `Session.respondWithToolOutput`:

    s.messages = append(s.messages, ai.Message{Role: "user", Content: output,
      ToolCallID: toolUseID})
-/
def respondAppend (ms : List Message) (output id : String) : List Message :=
  ms ++ [⟨"user", output, id, none⟩]

/-- Append performed at the end of `Session.sendFullContext`:

    s.messages = append(s.messages, ai.Message{Role: "assistant", Content: res})
-/
def assistantAppend (ms : List Message) (res : String) : List Message :=
  ms ++ [⟨"assistant", res, "", none⟩]

/-- Conversation histories reachable in the session coordinator.  Each
constructor is one of the history mutations of the source:
`prompt` is the `EventUserPrompt` handler followed by the `SendMessage`
it spawns (both append the user message), `toolResult` is
`respondWithToolOutput`, `assistant` is the append at the end of
`sendFullContext`, and `clear` is `ClearMessages`.  The relation
deliberately over-approximates the sequencing of the last three steps, so
any invariant proved over it holds for every history the program can
exhibit. -/
inductive Reachable : List Message → Prop where
  | init : Reachable []
  | prompt (ms : List Message) (text : String) :
      Reachable ms → Reachable (sendMessageAppend (interactivePromptAppend ms text) text)
  | toolResult (ms : List Message) (output id : String) :
      Reachable ms → Reachable (respondAppend ms output id)
  | assistant (ms : List Message) (res : String) :
      Reachable ms → Reachable (assistantAppend ms res)
  | clear (ms : List Message) : Reachable ms → Reachable []

/-- Adjacent-roles part of the history invariant claimed by the
specification: the roles alternate user/assistant except where a
tool/assistant pair is interposed, which in particular forbids two
adjacent user-role messages (an interposed pair would use the "tool"
role). -/
def noUserUser : List Message → Bool
  | m1 :: m2 :: rest =>
      !(m1.role == "user" && m2.role == "user") && noUserUser (m2 :: rest)
  | _ => true

/-- Call-id part of the history invariant claimed by the specification:
every tool-role message's tool-call-id matches the id of the structured
tool call of some earlier assistant message.  `seen` accumulates the ids
of assistant tool calls already passed. -/
def toolIdsMatchAux (seen : List String) : List Message → Bool
  | [] => true
  | m :: rest =>
      (if m.role == "tool" then seen.contains m.toolCallID else true) &&
        toolIdsMatchAux
          (match m.toolCall with
           | some tu => if m.role == "assistant" then tu.id :: seen else seen
           | none => seen)
          rest

/-- The conversation-history invariant exactly as the specification claims
it (its adjacent-roles consequence together with the call-id condition). -/
def specHistoryInvariant (ms : List Message) : Bool :=
  noUserUser ms && toolIdsMatchAux [] ms

/-- Property that actually holds of every message the session coordinator
appends: the role is "user" or "assistant", the structured tool-call field
is never populated, and a message carrying a tool-call id has role
"user" (tool results are appended with role "user", not "tool"). -/
def msgOK (m : Message) : Prop :=
  (m.role = "user" ∨ m.role = "assistant") ∧ m.toolCall = none ∧
    (m.toolCallID ≠ "" → m.role = "user")

/-! ## Theorems about the stream driver receive loop -/

/-- Once the inner context is cancelled the receive loop processes no
further chunk. -/
theorem streamRun_of_cancelled (s : StreamState) (l : List MessageChunk)
    (h : s.cancelled = true) : streamRun s l = s := by
  cases l with
  | nil => rfl
  | cons c cs => simp [streamRun, h]

/-- The receive loop over a concatenation of chunk sequences is the loop
over the first sequence continued over the second. -/
theorem streamRun_append (s : StreamState) (l1 l2 : List MessageChunk) :
    streamRun s (l1 ++ l2) = streamRun (streamRun s l1) l2 := by
  induction l1 generalizing s with
  | nil => rfl
  | cons c cs ih =>
      rw [List.cons_append]
      by_cases h : s.cancelled = true
      · rw [streamRun_of_cancelled _ _ h, streamRun_of_cancelled _ _ h,
          streamRun_of_cancelled _ _ h]
      · have hb : s.cancelled = false := by simpa using h
        rw [show streamRun s (c :: (cs ++ l2)) = streamRun (streamStep s c) (cs ++ l2)
            from by simp [streamRun, hb]]
        rw [ih]
        congr 1
        simp [streamRun, hb]

/-- Processing a ToolCall chunk cancels the inner context (the loop body
calls `s.Close()`). -/
theorem streamStep_toolCall_cancels (s : StreamState) (c : MessageChunk)
    (h : c.typ = ChunkToolCall) : (streamStep s c).cancelled = true := by
  simp [streamStep, h]

/-- Claim C2: once a ToolCall chunk is received the receive loop of
`Stream.Start` terminates without folding any subsequent Text or
Reasoning chunk into its accumulators — running the loop over any chunk
sequence extending past the ToolCall chunk yields exactly the state
reached by stopping right after that chunk, whatever arrives later. -/
theorem toolCallChunk_terminates_stream (s : StreamState) (pre post : List MessageChunk)
    (tc : MessageChunk) (htc : tc.typ = ChunkToolCall) :
    streamRun s (pre ++ tc :: post) = streamRun s (pre ++ [tc]) := by
  rw [streamRun_append, streamRun_append]
  by_cases h : (streamRun s pre).cancelled = true
  · rw [streamRun_of_cancelled _ _ h, streamRun_of_cancelled _ _ h]
  · have hb : (streamRun s pre).cancelled = false := by simpa using h
    have hcs : (streamStep (streamRun s pre) tc).cancelled = true :=
      streamStep_toolCall_cancels _ _ htc
    calc streamRun (streamRun s pre) (tc :: post)
        = streamRun (streamStep (streamRun s pre) tc) post := by simp [streamRun, hb]
      _ = streamStep (streamRun s pre) tc := streamRun_of_cancelled _ _ hcs
      _ = streamRun (streamRun s pre) [tc] := by simp [streamRun, hb]

/-- Witness for C2: a Text chunk delivered after a ToolCall chunk leaves
the stream state untouched. -/
theorem toolCallChunk_terminates_stream_witness :
    streamRun mkStream
      ([⟨ChunkMessage, "a", none⟩] ++
        (⟨ChunkToolCall, "", some ⟨"1", "list_files", ""⟩⟩ : MessageChunk) ::
          [⟨ChunkMessage, "b", none⟩]) =
    streamRun mkStream
      ([⟨ChunkMessage, "a", none⟩] ++ [⟨ChunkToolCall, "", some ⟨"1", "list_files", ""⟩⟩]) :=
  toolCallChunk_terminates_stream mkStream _ _ _ rfl

/-- Appending one chunk to a trace extends the Text concatenation exactly
when the chunk is a Text chunk. -/
theorem concatTexts_append_one (t : List MessageChunk) (c : MessageChunk) :
    concatTexts (t ++ [c]) =
      if c.typ = ChunkMessage then concatTexts t ++ c.content else concatTexts t := by
  unfold concatTexts
  rw [List.foldl_append]
  rfl

/-- The content accumulator always equals the concatenation of the Text
chunks forwarded to the observer so far. -/
theorem streamRun_content_invariant (l : List MessageChunk) (s : StreamState)
    (h : s.content = concatTexts s.trace) :
    (streamRun s l).content = concatTexts (streamRun s l).trace := by
  induction l generalizing s with
  | nil => exact h
  | cons c cs ih =>
      by_cases hc : s.cancelled = true
      · rw [streamRun_of_cancelled _ _ hc]; exact h
      · have hb : s.cancelled = false := by simpa using hc
        rw [show streamRun s (c :: cs) = streamRun (streamStep s c) cs
            from by simp [streamRun, hb]]
        apply ih
        by_cases hm : c.typ = ChunkMessage <;>
          simp [streamStep, concatTexts_append_one, hm, h]

/-- Claim C4: for every turn of a `Stream`, the concatenation in delivery
order of all Text chunks forwarded to the observer callback equals the
string `Content()` returns after `Wait()` — the final content accumulator
equals the Text concatenation of the observer trace, for every delivered
chunk sequence. -/
theorem observed_texts_eq_content (l : List MessageChunk) :
    (streamRun mkStream l).content = concatTexts (streamRun mkStream l).trace :=
  streamRun_content_invariant l mkStream rfl

/-- The zero-valued chunk a closed channel yields matches no switch case:
it changes neither the cancellation flag nor the accumulators. -/
theorem streamStep_zeroChunk_alive (s : StreamState) :
    (streamStep s zeroChunk).cancelled = s.cancelled ∧
      (streamStep s zeroChunk).toolCall = s.toolCall ∧
      (streamStep s zeroChunk).content = s.content := by
  refine ⟨?_, ?_, ?_⟩ <;> simp [streamStep, zeroChunk, ChunkToolCall, ChunkMessage]

/-- After the provider closes the chunk channel, no number of loop
iterations ever cancels the inner context of an alive stream. -/
theorem streamRunClosed_never_cancels (n : Nat) (s : StreamState)
    (h : s.cancelled = false) :
    (streamRunClosed n s).cancelled = false ∧
      (streamRunClosed n s).toolCall = s.toolCall ∧
      (streamRunClosed n s).content = s.content := by
  induction n generalizing s with
  | zero => exact ⟨h, rfl, rfl⟩
  | succ n ih =>
      rw [show streamRunClosed (n + 1) s = streamRunClosed n (streamStep s zeroChunk)
          from by simp [streamRunClosed, h]]
      obtain ⟨h1, h2, h3⟩ := streamStep_zeroChunk_alive s
      obtain ⟨g1, g2, g3⟩ := ih (streamStep s zeroChunk) (h1.trans h)
      exact ⟨g1, g2.trans h2, g3.trans h3⟩

/-- Claim C3 (refuting the claimed behaviour, which the code does not
implement): when the provider goroutine closes the chunk channel while
the context is not cancelled, the receive loop of `Stream.Start` does
NOT terminate.  The loop receives the zero value of `MessageChunk` on
every iteration (a receive on a closed Go channel, taken without the
`ok` flag), the zero tag matches no switch case, and the loop's only
exit condition — cancellation of the inner context — is never reached:
after any number of iterations the loop guard still holds and no tool
call is reported, so `Start` never returns and `Wait()` never unblocks. -/
theorem closedChannel_loop_never_exits (n : Nat) :
    (streamRunClosed n mkStream).cancelled = false ∧
      (streamRunClosed n mkStream).toolCall = none :=
  ⟨(streamRunClosed_never_cancels n mkStream rfl).1,
    (streamRunClosed_never_cancels n mkStream rfl).2.1⟩

/-! ## Theorems about the session coordinator -/

/-- The `InteractiveMode` event loop never removes a name from the
session permission set. -/
theorem mem_foldl_permStep (x : String) (evs : List InEvent) (p : List String)
    (h : x ∈ p) : x ∈ evs.foldl permStep p := by
  induction evs generalizing p with
  | nil => exact h
  | cons e rest ih =>
      apply ih
      cases e with
      | permitSession tc => exact List.mem_cons_of_mem _ h
      | userPrompt s => exact h
      | permitOnce tc => exact h
      | cancelTool tc => exact h

/-- Claim C5: after permission for a tool name is granted with session
scope (`EventPermitToolUseThisSession`), every later tool call with that
name in the same session — whatever inbound events arrive in between —
executes without emitting another permission request: the handler's
outbound event list is empty (in particular contains no `EventToolCall`
prompt) and the call executes. -/
theorem sessionGrant_no_reprompt (permitted : List String) (granted : ToolCall)
    (evs : List InEvent) (tc : ToolCall) (d : Decision) (output : String)
    (hname : tc.name = granted.name) :
    (handleToolCall (evs.foldl permStep (permStep permitted (InEvent.permitSession granted)))
        tc d output).events = [] ∧
      (handleToolCall (evs.foldl permStep (permStep permitted (InEvent.permitSession granted)))
        tc d output).executed = true := by
  have hmem : tc.name ∈
      evs.foldl permStep (permStep permitted (InEvent.permitSession granted)) := by
    apply mem_foldl_permStep
    rw [hname]
    exact List.mem_cons_self _ _
  unfold handleToolCall
  rw [if_pos hmem]
  exact ⟨rfl, rfl⟩

/-- Witness for C5: a session grant for `read_file` followed by an
unrelated prompt still lets the next `read_file` call run unprompted. -/
theorem sessionGrant_no_reprompt_witness :
    (handleToolCall
        ([InEvent.userPrompt "x"].foldl permStep
          (permStep [] (InEvent.permitSession ⟨"1", "read_file", ""⟩)))
        ⟨"2", "read_file", ""⟩ Decision.deny "output").events = [] ∧
      (handleToolCall
        ([InEvent.userPrompt "x"].foldl permStep
          (permStep [] (InEvent.permitSession ⟨"1", "read_file", ""⟩)))
        ⟨"2", "read_file", ""⟩ Decision.deny "output").executed = true :=
  sessionGrant_no_reprompt [] ⟨"1", "read_file", ""⟩ [InEvent.userPrompt "x"]
    ⟨"2", "read_file", ""⟩ Decision.deny "output" rfl

/-- Counterexample to claim C6: a denied tool call appends no message at
all to the conversation — in particular no tool-result message informing
the model the call was declined.  The `continue` in `StartStream` simply
skips the chunk. -/
theorem denied_toolCall_appends_nothing :
    (handleToolCall [] ⟨"call1", "read_file", ""⟩ Decision.deny "").appended = [] ∧
      (handleToolCall [] ⟨"call1", "read_file", ""⟩ Decision.deny "").executed = false := by
  decide

/-- Claim C6 as amended: when the observer denies a tool call, the
coordinator emits the permission prompt, does not execute the tool, leaves
the permission set unchanged, and appends no message to the conversation
(the model is never told the call was declined). -/
theorem denied_toolCall_skips_silently (permitted : List String) (tc : ToolCall)
    (output : String) (h : tc.name ∉ permitted) :
    handleToolCall permitted tc Decision.deny output =
      ⟨[OutEvent.toolCallReq tc], permitted, false, []⟩ := by
  unfold handleToolCall
  rw [if_neg h]

/-- Witness for the amended C6. -/
theorem denied_toolCall_skips_silently_witness :
    handleToolCall [] ⟨"call1", "read_file", ""⟩ Decision.deny "out" =
      ⟨[OutEvent.toolCallReq ⟨"call1", "read_file", ""⟩], [], false, []⟩ :=
  denied_toolCall_skips_silently [] ⟨"call1", "read_file", ""⟩ "out" (by decide)

/-! ## Theorems about the tool gateway -/

/-- Counterexample to claim C7: the result for an unknown tool name is an
error result whose content is "Unknown tool: frobnicate" — it does not
name any of the available tools (none of the registered names occurs in
it), contrary to the claim that the message names the available tools. -/
theorem unknownTool_message_lacks_toolList :
    (ExecuteTool (fun _ _ => Except.ok "") ⟨"id1", "frobnicate", ""⟩).isError = true ∧
      (ExecuteTool (fun _ _ => Except.ok "") ⟨"id1", "frobnicate", ""⟩).content =
        "Unknown tool: frobnicate" ∧
      ∀ n ∈ registeredToolNames,
        strContainsSub (ExecuteTool (fun _ _ => Except.ok "") ⟨"id1", "frobnicate", ""⟩).content
          n = false := by
  decide

/-- Claim C7 as amended: for every tool name outside the registry,
`ExecuteTool` returns a result (`IsError` set, not a crash) whose content
is the descriptive message "Unknown tool: " followed by the requested
name; the message does not list the available tools. -/
theorem unknownTool_returns_descriptive_error
    (execTool : String → String → Except String String) (tc : ToolCall)
    (h : tc.name ∉ registeredToolNames) :
    ExecuteTool execTool tc = ⟨tc.id, "Unknown tool: " ++ tc.name, true⟩ := by
  unfold ExecuteTool
  rw [if_neg h]

/-- Witness for the amended C7. -/
theorem unknownTool_returns_descriptive_error_witness :
    ExecuteTool (fun _ _ => Except.ok "") ⟨"id1", "frobnicate", ""⟩ =
      ⟨"id1", "Unknown tool: frobnicate", true⟩ :=
  unknownTool_returns_descriptive_error (fun _ _ => Except.ok "")
    ⟨"id1", "frobnicate", ""⟩ (by decide)

/-- Claim C1 (refuting the claimed sandbox property, which `listFiles`
does not implement): with working directory "/wd", the `list_files`
argument "../../etc/passwd" resolves to "/etc/passwd", a path outside the
working directory, yet `listFiles` proceeds to access it instead of
returning an error — it performs no containment check at all (and
`searchFiles` likewise).  The same input is rejected by `readFile`'s
sandbox gate in the same file, showing the check the claim describes
exists but is absent from `listFiles`. -/
theorem listFiles_accesses_outside_workingDir :
    listFiles_targetPath "/wd" "../../etc/passwd" = Except.ok "/etc/passwd" ∧
      goHasPre (goAbs "/wd" "/etc/passwd") "/wd" = false ∧
      readFile_targetPath (fun _ _ => false) ⟨[]⟩ "/wd" "/wd" "../../etc/passwd" =
        Except.error "access denied: path outside working directory" :=
  ⟨rfl, by decide, rfl⟩

/-! ## Theorems about the conversation history -/

/-- Counterexample to claim C8: the history reached by one user prompt
already violates the claimed invariant — the `EventUserPrompt` handler
appends the user message and then spawns `SendMessage`, which appends it
again, so the history holds two adjacent user-role messages (and the code
never appends any tool-role message nor any assistant message carrying a
structured tool call). -/
theorem history_claim_counterexample :
    Reachable (sendMessageAppend (interactivePromptAppend [] "hi") "hi") ∧
      specHistoryInvariant (sendMessageAppend (interactivePromptAppend [] "hi") "hi") =
        false :=
  ⟨Reachable.prompt [] "hi" Reachable.init, by decide⟩

/-- Claim C8 as amended: in every reachable conversation history each
message's role is "user" or "assistant" (never "tool"), no message carries
a structured tool call, and every message with a non-empty tool-call-id
has role "user" — tool results enter the history as user-role messages
and the claimed user/assistant alternation does not hold (user prompts
are even appended twice). -/
theorem reachable_history_msgOK (ms : List Message) (h : Reachable ms) :
    ∀ m ∈ ms, msgOK m := by
  induction h with
  | init => intro m hm; cases hm
  | prompt ms0 text hr ih =>
      intro m hm
      simp only [sendMessageAppend, interactivePromptAppend, List.append_assoc,
        List.mem_append, List.mem_singleton] at hm
      rcases hm with hm | hm | hm
      · exact ih m hm
      · rw [hm]; exact ⟨Or.inl rfl, rfl, fun _ => rfl⟩
      · rw [hm]; exact ⟨Or.inl rfl, rfl, fun _ => rfl⟩
  | toolResult ms0 output id hr ih =>
      intro m hm
      simp only [respondAppend, List.mem_append, List.mem_singleton] at hm
      rcases hm with hm | hm
      · exact ih m hm
      · rw [hm]; exact ⟨Or.inl rfl, rfl, fun _ => rfl⟩
  | assistant ms0 res hr ih =>
      intro m hm
      simp only [assistantAppend, List.mem_append, List.mem_singleton] at hm
      rcases hm with hm | hm
      · exact ih m hm
      · rw [hm]; exact ⟨Or.inr rfl, rfl, fun hne => absurd rfl hne⟩
  | clear ms0 hr ih => intro m hm; cases hm

/-- Witness for the amended C8. -/
theorem reachable_history_msgOK_witness :
    msgOK ⟨"user", "hi", "", none⟩ :=
  reachable_history_msgOK (sendMessageAppend (interactivePromptAppend [] "hi") "hi")
    (Reachable.prompt [] "hi" Reachable.init) ⟨"user", "hi", "", none⟩ (by decide)

/-! ## Theorems about internal/tools/security.go -/

/-- Claim C9: `IsExcluded` returns true for every path whose first byte is
'/', before and independently of the exclude patterns, and on the empty
string its unguarded `path[0]` access panics, which the total embedding
renders as the explicit `none` branch. -/
theorem isExcluded_absolute_and_empty (fpMatch : String → String → Bool) (cfg : Config)
    (p : String) (cs : List Char) (h : p.toList = '/' :: cs) :
    IsExcluded fpMatch cfg p = some true ∧ IsExcluded fpMatch cfg "" = none := by
  constructor
  · unfold IsExcluded
    rw [h]
    simp
  · rfl

/-- Witness for C9. -/
theorem isExcluded_absolute_and_empty_witness :
    IsExcluded (fun _ _ => false) ⟨[]⟩ "/etc/passwd" = some true ∧
      IsExcluded (fun _ _ => false) ⟨[]⟩ "" = none :=
  isExcluded_absolute_and_empty (fun _ _ => false) ⟨[]⟩ "/etc/passwd"
    ("etc/passwd".toList) rfl

/-- Claim C10: `Sanitize` does not eliminate all traversal sequences and is
not idempotent — on the input "....//etc/passwd" its output still contains
the substring "../", and applying `Sanitize` twice differs from applying
it once. -/
theorem sanitize_not_idempotent :
    strContainsSub (Sanitize "....//etc/passwd") "../" = true ∧
      Sanitize (Sanitize "....//etc/passwd") ≠ Sanitize "....//etc/passwd" := by
  decide

end Clai
